import Mathlib

/-!
Verification of the Silksong watch controller pipeline
(`src/main/src/udp_listener_dashboard asyncio.py`, `src/src/feature_extractor.py`).

The shallow embedding below translates the Arbitrator/Actor state machine, the
predictor's temporal consensus filter, the quaternion rotation helper and the
feature-extraction/vector-preparation functions into Lean, and proves the
spec's claims about them.
-/

set_option maxRecDepth 8000

namespace Silksong

/-! ## Gestures, keys and the Arbitrator state

`Gesture` covers the union of the two class vocabularies in the dashboard
controller (`BINARY_CLASSES = ["walk", "idle"]` and
`MULTI_CLASSES = ["jump", "punch", "turn_left", "turn_right", "idle", "noise"]`). -/

inductive Gesture where
  | walk | idle | noise | jump | punch | turn_left | turn_right
deriving DecidableEq, Repr

inductive Dir where
  | left | right
deriving DecidableEq, Repr

/-- The pynput keys of `KEY_MAP = {"left": Key.left, "right": Key.right,
"jump": "z", "attack": "x"}`. -/
inductive GameKey where
  | keyLeft | keyRight | keyJump | keyAttack
deriving DecidableEq, Repr

def KEY_MAP : Dir → GameKey
  | .left => .keyLeft
  | .right => .keyRight

/-- A keyboard side effect (`keyboard.press` / `keyboard.release`). -/
inductive KeyEv where
  | press (k : GameKey)
  | release (k : GameKey)
deriving DecidableEq, Repr

/-- State owned by the `actor` coroutine: `is_walking`, `facing_direction`,
the `pressed_keys` set (it only ever holds the direction names `"left"` /
`"right"`; jump/attack keys are pressed and released in the same statement),
the `last_action_time` dict (keys `"jump"` / `"punch"`, absent initially,
read with `.get(gesture, 0)`), and `last_walk_confirmation`.
Times are modelled as exact rationals. -/
structure ActorState where
  is_walking : Bool
  facing_direction : Dir
  pressedLeft : Bool
  pressedRight : Bool
  lastJumpTime : Option ℚ
  lastPunchTime : Option ℚ
  last_walk_confirmation : ℚ
deriving DecidableEq, Repr

/-- `actor`'s initial state: `is_walking = False`,
`facing_direction = "right"`, `pressed_keys = set()`, `last_action_time = {}`,
`last_walk_confirmation = time.time()` (a parameter `t0` here). -/
def initActorState (t0 : ℚ) : ActorState :=
  { is_walking := false
    facing_direction := .right
    pressedLeft := false
    pressedRight := false
    lastJumpTime := none
    lastPunchTime := none
    last_walk_confirmation := t0 }

def pressedAt (s : ActorState) : Dir → Bool
  | .left => s.pressedLeft
  | .right => s.pressedRight

def setPressed (s : ActorState) (d : Dir) (b : Bool) : ActorState :=
  match d with
  | .left => { s with pressedLeft := b }
  | .right => { s with pressedRight := b }

/-- `for direction in ["left", "right"]: if direction in pressed_keys:
keyboard.release(KEY_MAP[direction]); pressed_keys.discard(direction)` —
the stop-walking cleanup shared by `handle_locomotion`, `handle_action`
and the walk-timeout branch of `actor`. -/
def releaseDirs (s : ActorState) : ActorState × List KeyEv :=
  let (s₁, e₁) :=
    if s.pressedLeft then ({ s with pressedLeft := false }, [KeyEv.release (KEY_MAP .left)])
    else (s, [])
  let (s₂, e₂) :=
    if s₁.pressedRight then ({ s₁ with pressedRight := false }, [KeyEv.release (KEY_MAP .right)])
    else (s₁, [])
  (s₂, e₁ ++ e₂)

/-- `last_action_time.get(gesture, 0)` for `gesture in {"jump", "punch"}`. -/
def lastActionTime (s : ActorState) : Gesture → ℚ
  | .jump => s.lastJumpTime.getD 0
  | .punch => s.lastPunchTime.getD 0
  | _ => 0

def setLastActionTime (s : ActorState) (g : Gesture) (t : ℚ) : ActorState :=
  match g with
  | .jump => { s with lastJumpTime := some t }
  | .punch => { s with lastPunchTime := some t }
  | _ => s

/-- The turn branch of `handle_action` (lines 355–369): `new_direction` is
`latest_gesture.split("_")[1]`; if it differs from the current facing it is
adopted and, while walking, the old-direction key is released and the
new-direction key pressed within the same (await-free) handler step. -/
def turnBody (s : ActorState) (new_direction : Dir) : ActorState × List KeyEv :=
  if s.facing_direction ≠ new_direction then
    let old_direction := s.facing_direction
    let s₁ := { s with facing_direction := new_direction }
    -- If walking, swap the pressed keys
    if s₁.is_walking then
      let (s₂, e₁) :=
        if pressedAt s₁ old_direction then
          (setPressed s₁ old_direction false, [KeyEv.release (KEY_MAP old_direction)])
        else (s₁, [])
      (setPressed s₂ new_direction true, e₁ ++ [KeyEv.press (KEY_MAP new_direction)])
    else (s₁, [])
  else (s, [])

/-- The jump/punch branch of `handle_action` (lines 372–393): 300 ms
cooldown per action type, stop walking first, then press-then-release the
mapped key and record the firing time. -/
def actionBody (s : ActorState) (g : Gesture) (now : ℚ) : ActorState × List KeyEv :=
  -- `cooldown = last_action_time.get(gesture, 0)`
  if now - lastActionTime s g > 3/10 then  -- 300ms cooldown per action type
    let se :=
      if s.is_walking then
        ({ (releaseDirs s).1 with is_walking := false }, (releaseDirs s).2)
      else (s, [])
    let e₂ :=
      if g = .jump then [KeyEv.press .keyJump, KeyEv.release .keyJump]
      else [KeyEv.press .keyAttack, KeyEv.release .keyAttack]
    (setLastActionTime se.1 g now, se.2 ++ e₂)
  else (s, [])

/-- The per-gesture body of `handle_action` (lines 347–395): run once the
queue has been drained and a latest gesture found.  The Python dispatches
on string equality against the literals of `MULTI_CLASSES`; gestures that
match no branch (`idle`, or locomotion labels that never reach this queue)
fall through unchanged. -/
def handle_action_g (s : ActorState) (g : Gesture) (now : ℚ) : ActorState × List KeyEv :=
  match g with
  | .noise => (s, [])           -- Filter out noise predictions
  | .turn_left => turnBody s .left
  | .turn_right => turnBody s .right
  | .jump => actionBody s .jump now
  | .punch => actionBody s .punch now
  | _ => (s, [])

/-- The `while True: latest = queue.get_nowait() ... except QueueEmpty: break`
drain loop at the top of both `handle_action` and `handle_locomotion`:
every pending entry is popped, each overwriting `latest`, so only the
most recently enqueued entry survives. -/
def drain {α : Type} (q : List α) : Option α :=
  q.foldl (fun _ x => some x) none

/-- `handle_action` on the whole pending queue (a list, oldest first). -/
def handle_action (s : ActorState) (q : List (Gesture × ℚ)) (now : ℚ) :
    ActorState × List KeyEv :=
  match drain q with
  | none => (s, [])
  | some (g, _) => handle_action_g s g now

/-- The per-gesture body of `handle_locomotion` (lines 295–323).  The third
component is the `walk_confirmed` flag returned to `actor`. -/
def handle_locomotion_g (s : ActorState) (g : Gesture) :
    ActorState × List KeyEv × Bool :=
  match g with
  | .noise | .idle =>
      if s.is_walking then
        -- Noise or idle while walking = stop walking; release both direction keys
        let r := releaseDirs s
        ({ r.1 with is_walking := false }, r.2, false)
      else (s, [], false)
  | .walk =>
      if s.is_walking = false then
        let s₁ := { s with is_walking := true }
        (setPressed s₁ s₁.facing_direction true,
          [KeyEv.press (KEY_MAP s₁.facing_direction)], true)
      else
        -- Already walking - this is a confirmation
        (s, [], true)
  | _ => (s, [], false)

/-- `handle_locomotion` on the whole pending queue. -/
def handle_locomotion (s : ActorState) (q : List (Gesture × ℚ)) :
    ActorState × List KeyEv × Bool :=
  match drain q with
  | none => (s, [], false)
  | some (g, _) => handle_locomotion_g s g

/-- The walk-timeout branch of the `actor` loop (lines 260–267):
`if is_walking and (now - last_walk_confirmation) > WALK_TIMEOUT` with
`WALK_TIMEOUT = 0.8`. -/
def walkTimeout (s : ActorState) (now : ℚ) : ActorState × List KeyEv :=
  if s.is_walking ∧ now - s.last_walk_confirmation > 4/5 then
    let (s', e) := releaseDirs s
    ({ s' with is_walking := false }, e)
  else (s, [])

/-- One transition of the Arbitrator: servicing the action queue, servicing
the locomotion queue (recording `last_walk_confirmation := now` when the
handler reports `walk_confirmed`), or the walk-timeout check.  The `actor`
loop performs these in sequence each iteration; closing the reachable-state
set under each of them separately covers every interleaving. -/
inductive ActorEvent where
  | act (q : List (Gesture × ℚ)) (now : ℚ)
  | loco (q : List (Gesture × ℚ)) (now : ℚ)
  | timeout (now : ℚ)

def stepActor (s : ActorState) (e : ActorEvent) : ActorState × List KeyEv :=
  match e with
  | .act q now => handle_action s q now
  | .loco q now =>
      let r := handle_locomotion s q
      (if r.2.2 then { r.1 with last_walk_confirmation := now } else r.1, r.2.1)
  | .timeout now => walkTimeout s now

/-- States of the Arbitrator reachable from the initial state by any
sequence of queue-servicing / timeout transitions. -/
inductive Reachable : ActorState → Prop where
  | init (t0 : ℚ) : Reachable (initActorState t0)
  | step {s : ActorState} (e : ActorEvent) : Reachable s → Reachable (stepActor s e).1

/-- The inductive invariant: the pressed directional keys are exactly
`{facing_direction}` while walking and `∅` otherwise. -/
def ActorInv (s : ActorState) : Prop :=
  s.pressedLeft = (s.is_walking && decide (s.facing_direction = .left)) ∧
  s.pressedRight = (s.is_walking && decide (s.facing_direction = .right))

theorem actorInv_init (t0 : ℚ) : ActorInv (initActorState t0) := by
  constructor <;> rfl

theorem actorInv_releaseDirs {s : ActorState} :
    (releaseDirs s).1.pressedLeft = false ∧ (releaseDirs s).1.pressedRight = false := by
  unfold releaseDirs
  cases hL : s.pressedLeft <;> cases hR : s.pressedRight <;> simp [hL, hR]

theorem releaseDirs_fst (s : ActorState) :
    (releaseDirs s).1 = { s with pressedLeft := false, pressedRight := false } := by
  cases s with
  | mk w f pl pr lj lp lw =>
    unfold releaseDirs
    cases pl <;> cases pr <;> rfl

theorem actorInv_turnBody {s : ActorState} (h : ActorInv s) (d : Dir) :
    ActorInv (turnBody s d).1 := by
  obtain ⟨hL, hR⟩ := h
  cases s with
  | mk w f pl pr lj lp lw =>
    simp only [ActorInv] at hL hR ⊢
    cases w <;> cases f <;> cases d <;> cases pl <;> cases pr <;>
      first
        | (constructor <;> rfl)
        | (simp at hL; done)
        | (simp at hR; done)

theorem actorInv_actionBody {s : ActorState} (h : ActorInv s) (g : Gesture) (now : ℚ) :
    ActorInv (actionBody s g now).1 := by
  obtain ⟨hL, hR⟩ := h
  unfold actionBody
  by_cases hc : now - lastActionTime s g > 3/10
  · rw [if_pos hc]
    cases s with
    | mk w f pl pr lj lp lw =>
      simp only [ActorInv] at hL hR ⊢
      cases w <;> cases f <;> cases pl <;> cases pr <;> cases g <;>
        first
          | (constructor <;> rfl)
          | (simp at hL; done)
          | (simp at hR; done)
  · rw [if_neg hc]
    exact ⟨hL, hR⟩

theorem actorInv_handle_action_g {s : ActorState} (h : ActorInv s)
    (g : Gesture) (now : ℚ) : ActorInv (handle_action_g s g now).1 := by
  cases g
  case noise => exact h
  case turn_left => exact actorInv_turnBody h .left
  case turn_right => exact actorInv_turnBody h .right
  case jump => exact actorInv_actionBody h .jump now
  case punch => exact actorInv_actionBody h .punch now
  case walk => exact h
  case idle => exact h

theorem actorInv_handle_locomotion_g {s : ActorState} (h : ActorInv s)
    (g : Gesture) : ActorInv (handle_locomotion_g s g).1 := by
  obtain ⟨hL, hR⟩ := h
  cases s with
  | mk w f pl pr lj lp lw =>
    simp only [ActorInv] at hL hR ⊢
    cases w <;> cases f <;> cases pl <;> cases pr <;> cases g <;>
      first
        | (constructor <;> rfl)
        | (simp at hL; done)
        | (simp at hR; done)

theorem actorInv_step {s : ActorState} (h : ActorInv s) (e : ActorEvent) :
    ActorInv (stepActor s e).1 := by
  cases e with
  | act q now =>
      show ActorInv (handle_action s q now).1
      unfold handle_action
      cases drain q with
      | none => exact h
      | some p => exact actorInv_handle_action_g h p.1 now
  | loco q now =>
      have hbase : ActorInv (handle_locomotion s q).1 := by
        unfold handle_locomotion
        cases drain q with
        | none => exact h
        | some p => exact actorInv_handle_locomotion_g h p.1
      show ActorInv (if (handle_locomotion s q).2.2 then
        { (handle_locomotion s q).1 with last_walk_confirmation := now }
        else (handle_locomotion s q).1, (handle_locomotion s q).2.1).1
      by_cases hwc : (handle_locomotion s q).2.2 = true
      · simp only [hwc, if_true]
        exact ⟨hbase.1, hbase.2⟩
      · simp only [Bool.not_eq_true] at hwc
        simp only [hwc, Bool.false_eq_true, if_false]
        exact hbase
  | timeout now =>
      show ActorInv (walkTimeout s now).1
      unfold walkTimeout
      by_cases hc : s.is_walking = true ∧ now - s.last_walk_confirmation > 4/5
      · simp only [hc, if_true, and_true, decide_eq_true_eq]
        obtain ⟨hrl, hrr⟩ := actorInv_releaseDirs (s := s)
        refine ⟨?_, ?_⟩ <;> simp [hrl, hrr]
      · simp only [hc, if_false]
        exact h

theorem actorInv_reachable {s : ActorState} (h : Reachable s) : ActorInv s := by
  induction h with
  | init t0 => exact actorInv_init t0
  | step e _ ih => exact actorInv_step ih e

/-- **C1** — For every reachable state of the Arbitrator (starting from
`is_walking = False`, no keys held), the held directional key set never
contains both `left` and `right`, and whenever `is_walking` is true exactly
one of `{left, right}` is held. -/
theorem arbitrator_directional_key_invariant {s : ActorState} (h : Reachable s) :
    (¬(s.pressedLeft = true ∧ s.pressedRight = true)) ∧
    (s.is_walking = true →
      (s.pressedLeft = true ∧ s.pressedRight = false) ∨
      (s.pressedLeft = false ∧ s.pressedRight = true)) := by
  obtain ⟨hL, hR⟩ := actorInv_reachable h
  constructor
  · rintro ⟨h1, h2⟩
    rw [hL] at h1
    rw [hR] at h2
    cases hw : s.is_walking <;> rw [hw] at h1 h2 <;> simp at h1 h2
    cases hfd : s.facing_direction <;> rw [hfd] at h1 h2 <;> simp at h1 h2
  · intro hw
    rw [hL, hR, hw]
    cases hfd : s.facing_direction <;> simp [hfd]

/-- Witness for C1 at a concrete reachable state: after a confirmed `walk`
from the initial state, the actor is walking and holds exactly the right key. -/
theorem arbitrator_directional_key_invariant_witness :
    (¬((stepActor (initActorState 0) (.loco [(.walk, 1)] 1)).1.pressedLeft = true ∧
       (stepActor (initActorState 0) (.loco [(.walk, 1)] 1)).1.pressedRight = true)) ∧
    ((stepActor (initActorState 0) (.loco [(.walk, 1)] 1)).1.is_walking = true →
      ((stepActor (initActorState 0) (.loco [(.walk, 1)] 1)).1.pressedLeft = true ∧
       (stepActor (initActorState 0) (.loco [(.walk, 1)] 1)).1.pressedRight = false) ∨
      ((stepActor (initActorState 0) (.loco [(.walk, 1)] 1)).1.pressedLeft = false ∧
       (stepActor (initActorState 0) (.loco [(.walk, 1)] 1)).1.pressedRight = true)) :=
  arbitrator_directional_key_invariant
    (Reachable.step (.loco [(.walk, 1)] 1) (Reachable.init 0))

/-- **C2** — When the Arbitrator services its action queue and finds a
confirmed `turn_left`/`turn_right` while `is_walking` is true and the new
direction differs from the current facing, the held directional key set
transitions in that single transition from `{old}` to `{new}`: the states
of the transition system before and after the step hold exactly the old
and exactly the new key, with no intermediate state (the handler body runs
without an `await`), and the emitted effects are exactly
`[release old, press new]`. -/
theorem turn_swaps_keys_atomically {s : ActorState} {g : Gesture} {dOld dNew : Dir}
    (c now : ℚ)
    (hg : (g = .turn_left ∧ dNew = .left) ∨ (g = .turn_right ∧ dNew = .right))
    (hw : s.is_walking = true) (hf : s.facing_direction = dOld) (hne : dNew ≠ dOld)
    (hpL : s.pressedLeft = decide (dOld = .left))
    (hpR : s.pressedRight = decide (dOld = .right)) :
    (stepActor s (.act [(g, c)] now)).1.pressedLeft = decide (dNew = .left) ∧
    (stepActor s (.act [(g, c)] now)).1.pressedRight = decide (dNew = .right) ∧
    (stepActor s (.act [(g, c)] now)).2 =
      [KeyEv.release (KEY_MAP dOld), KeyEv.press (KEY_MAP dNew)] := by
  rcases hg with ⟨hg1, hd⟩ | ⟨hg1, hd⟩ <;> subst hg1 <;> subst hd <;>
  cases s with
  | mk w f pl pr lj lp lw =>
    subst hw
    cases dOld <;>
      first
        | exact absurd hf (by subst hf; exact absurd rfl hne)
        | (simp only at hf
           subst hf
           simp only [decide] at hpL hpR
           subst hpL
           subst hpR
           refine ⟨rfl, rfl, rfl⟩)

/-- Witness for C2: walking right with the right key held, a confirmed
`turn_left` moves the held set to exactly `{left}` with a
release-then-press pair. -/
theorem turn_swaps_keys_atomically_witness :
    (stepActor ⟨true, .right, false, true, none, none, 0⟩ (.act [(.turn_left, 1)] 2)).1.pressedLeft
        = decide (Dir.left = Dir.left) ∧
    (stepActor ⟨true, .right, false, true, none, none, 0⟩ (.act [(.turn_left, 1)] 2)).1.pressedRight
        = decide (Dir.left = Dir.right) ∧
    (stepActor ⟨true, .right, false, true, none, none, 0⟩ (.act [(.turn_left, 1)] 2)).2 =
      [KeyEv.release (KEY_MAP .right), KeyEv.press (KEY_MAP .left)] :=
  turn_swaps_keys_atomically 1 2 (Or.inl ⟨rfl, rfl⟩) rfl rfl (by decide) (by decide) (by decide)

/-- The jump-key events among a list of keyboard effects: each confirmed
jump firing contributes exactly one press-release pair of `KEY_MAP["jump"]`. -/
def jumpKeyEvents (evs : List KeyEv) : List KeyEv :=
  evs.filter (fun e => e == KeyEv.press .keyJump || e == KeyEv.release .keyJump)

theorem jumpKeyEvents_releaseDirs (s : ActorState) :
    jumpKeyEvents (releaseDirs s).2 = [] := by
  cases s with
  | mk w f pl pr lj lp lw =>
    unfold releaseDirs
    cases pl <;> cases pr <;> rfl

theorem jumpKeyEvents_append (a b : List KeyEv) :
    jumpKeyEvents (a ++ b) = jumpKeyEvents a ++ jumpKeyEvents b := by
  simp [jumpKeyEvents, List.filter_append]

/-- **C4** — Starting from any Arbitrator state whose first confirmed jump
fires (its time `t₁` is beyond the 0.3 s cooldown of any previous jump),
a second confirmed jump at time `t₂` produces exactly one jump
press-release pair overall if `t₂ - t₁ ≤ 0.3`, and exactly two pairs if
`t₂ - t₁ > 0.3`. -/
theorem jump_cooldown_fire_count (s : ActorState) (t₁ t₂ c₁ c₂ : ℚ)
    (h₁ : t₁ - s.lastJumpTime.getD 0 > 3/10) :
    (t₂ - t₁ ≤ 3/10 →
      jumpKeyEvents ((stepActor s (.act [(.jump, c₁)] t₁)).2 ++
          (stepActor (stepActor s (.act [(.jump, c₁)] t₁)).1 (.act [(.jump, c₂)] t₂)).2) =
        [KeyEv.press .keyJump, KeyEv.release .keyJump]) ∧
    (t₂ - t₁ > 3/10 →
      jumpKeyEvents ((stepActor s (.act [(.jump, c₁)] t₁)).2 ++
          (stepActor (stepActor s (.act [(.jump, c₁)] t₁)).1 (.act [(.jump, c₂)] t₂)).2) =
        [KeyEv.press .keyJump, KeyEv.release .keyJump,
         KeyEv.press .keyJump, KeyEv.release .keyJump]) := by
  have hstep1 : stepActor s (.act [(.jump, c₁)] t₁) = actionBody s .jump t₁ := rfl
  have hfired1 : actionBody s .jump t₁ =
      (setLastActionTime
          (if s.is_walking then { (releaseDirs s).1 with is_walking := false } else s)
          .jump t₁,
        (if s.is_walking then (releaseDirs s).2 else []) ++
          [KeyEv.press .keyJump, KeyEv.release .keyJump]) := by
    have h₁' : t₁ - lastActionTime s .jump > 3/10 := h₁
    unfold actionBody
    rw [if_pos h₁']
    cases hw : s.is_walking <;> simp [hw]
  have hs₂jump :
      (setLastActionTime
          (if s.is_walking then { (releaseDirs s).1 with is_walking := false } else s)
          .jump t₁).lastJumpTime = some t₁ := by
    cases hw : s.is_walking <;> simp [hw, setLastActionTime]
  have hs₂walk :
      (setLastActionTime
          (if s.is_walking then { (releaseDirs s).1 with is_walking := false } else s)
          .jump t₁).is_walking = false := by
    cases hw : s.is_walking <;> simp [hw, setLastActionTime]
  have hrel : jumpKeyEvents (if s.is_walking then (releaseDirs s).2 else []) = [] := by
    cases hw : s.is_walking
    · simp only [hw, Bool.false_eq_true, if_false]
      rfl
    · simp only [hw, if_true]
      exact jumpKeyEvents_releaseDirs s
  have hpair : jumpKeyEvents [KeyEv.press .keyJump, KeyEv.release .keyJump] =
      [KeyEv.press .keyJump, KeyEv.release .keyJump] := rfl
  rw [hstep1, hfired1]
  constructor
  · intro h₂
    have hnofire : stepActor
        (setLastActionTime
          (if s.is_walking then { (releaseDirs s).1 with is_walking := false } else s)
          .jump t₁, (if s.is_walking then (releaseDirs s).2 else []) ++
            [KeyEv.press .keyJump, KeyEv.release .keyJump]).1 (.act [(.jump, c₂)] t₂) =
        ((setLastActionTime
          (if s.is_walking then { (releaseDirs s).1 with is_walking := false } else s)
          .jump t₁), []) := by
      show actionBody _ .jump t₂ = _
      unfold actionBody
      rw [if_neg]
      simp only [lastActionTime, hs₂jump, Option.getD_some]
      exact not_lt.mpr h₂
    rw [hnofire]
    rw [List.append_nil, jumpKeyEvents_append, hrel, hpair, List.nil_append]
  · intro h₂
    have hfire2 : stepActor
        (setLastActionTime
          (if s.is_walking then { (releaseDirs s).1 with is_walking := false } else s)
          .jump t₁, (if s.is_walking then (releaseDirs s).2 else []) ++
            [KeyEv.press .keyJump, KeyEv.release .keyJump]).1 (.act [(.jump, c₂)] t₂) =
        (setLastActionTime
          (setLastActionTime
            (if s.is_walking then { (releaseDirs s).1 with is_walking := false } else s)
            .jump t₁) .jump t₂,
          [KeyEv.press .keyJump, KeyEv.release .keyJump]) := by
      show actionBody _ .jump t₂ = _
      unfold actionBody
      rw [if_pos]
      · rw [hs₂walk]
        simp
      · simp only [lastActionTime, hs₂jump, Option.getD_some]
        exact h₂
    rw [hfire2]
    rw [jumpKeyEvents_append, jumpKeyEvents_append, hrel, hpair, List.nil_append]
    rfl

/-- Witness for C4: from the initial state, jumps at `t₁ = 1` and
`t₂ = 1.2` give one pair (12/10 − 1 ≤ 3/10), and the same first jump with a
second at `t₂ = 2` gives two pairs. -/
theorem jump_cooldown_fire_count_witness :
    (jumpKeyEvents ((stepActor (initActorState 0) (.act [(.jump, 1)] 1)).2 ++
        (stepActor (stepActor (initActorState 0) (.act [(.jump, 1)] 1)).1
          (.act [(.jump, 1)] (12/10))).2) =
      [KeyEv.press .keyJump, KeyEv.release .keyJump]) ∧
    (jumpKeyEvents ((stepActor (initActorState 0) (.act [(.jump, 1)] 1)).2 ++
        (stepActor (stepActor (initActorState 0) (.act [(.jump, 1)] 1)).1
          (.act [(.jump, 1)] 2)).2) =
      [KeyEv.press .keyJump, KeyEv.release .keyJump,
       KeyEv.press .keyJump, KeyEv.release .keyJump]) :=
  ⟨(jump_cooldown_fire_count (initActorState 0) 1 (12/10) 1 1 (by norm_num [initActorState])).1
      (by norm_num),
   (jump_cooldown_fire_count (initActorState 0) 1 2 1 1 (by norm_num [initActorState])).2
      (by norm_num)⟩

/-- The `finally` cleanup of the `actor` coroutine (lines 271–277):
`for key in pressed_keys: keyboard.release(KEY_MAP.get(key, key))`.
`pressed_keys` only ever contains the direction names, so this releases
every held directional key (iteration order of the Python set is
unspecified; left-before-right is fixed here). -/
def actor_cleanup (s : ActorState) : ActorState × List KeyEv :=
  let e₁ := if s.pressedLeft then [KeyEv.release (KEY_MAP .left)] else []
  let e₂ := if s.pressedRight then [KeyEv.release (KEY_MAP .right)] else []
  ({ s with pressedLeft := false, pressedRight := false }, e₁ ++ e₂)

/-- **C5** — On shutdown of the actor loop (the `finally` block runs on any
exception or cancellation propagating out of the loop, in particular while
walking), every currently held key receives a release event and the held
directional key set of the resulting state is empty. -/
theorem shutdown_releases_all_keys (s : ActorState) :
    (actor_cleanup s).1.pressedLeft = false ∧
    (actor_cleanup s).1.pressedRight = false ∧
    (KeyEv.release (KEY_MAP .left) ∈ (actor_cleanup s).2 ↔ s.pressedLeft = true) ∧
    (KeyEv.release (KEY_MAP .right) ∈ (actor_cleanup s).2 ↔ s.pressedRight = true) := by
  cases s with
  | mk w f pl pr lj lp lw =>
    cases pl <;> cases pr <;> simp [actor_cleanup, KEY_MAP]

theorem drain_append_last {α : Type} (q : List α) (x : α) :
    drain (q ++ [x]) = some x := by
  unfold drain
  rw [List.foldl_append]
  rfl

/-- **C10** — Both queue handlers first drain their queue completely and
act only on the most recently enqueued confirmed prediction: servicing a
queue `q ++ [x]` is literally equal (same state, key events, cooldown
table and walk-confirmation flag) to servicing the one-element queue `[x]`,
so every older pending prediction is discarded with no effect; an empty
queue leaves the state untouched and emits nothing. -/
theorem queue_drain_latest_only (s : ActorState) (q : List (Gesture × ℚ))
    (x : Gesture × ℚ) (now : ℚ) :
    handle_action s (q ++ [x]) now = handle_action s [x] now ∧
    handle_locomotion s (q ++ [x]) = handle_locomotion s [x] ∧
    handle_action s [] now = (s, []) ∧
    handle_locomotion s [] = (s, [], false) := by
  refine ⟨?_, ?_, rfl, rfl⟩
  · unfold handle_action
    rw [drain_append_last]
    rfl
  · unfold handle_locomotion
    rw [drain_append_last]
    rfl

/-! ## The predictor's temporal consensus filter (lines 177–212) -/

/-- `ML_CONFIDENCE_THRESHOLD = 0.50`. -/
def ML_CONFIDENCE_THRESHOLD : ℚ := 1/2

/-- `CONSENSUS_WINDOW = 2`. -/
def CONSENSUS_WINDOW : ℕ := 2

/-- `deque(maxlen=k).append(g)`: a full deque evicts its oldest entry. -/
def dequeAppend (k : ℕ) (hist : List Gesture) (g : Gesture) : List Gesture :=
  if hist.length < k then hist ++ [g]
  else (hist ++ [g]).drop (hist.length + 1 - k)

/-- One consensus step of `predictor` (lines 203–212): if the prediction's
confidence reaches `ML_CONFIDENCE_THRESHOLD` it is appended to
`prediction_history` (`deque(maxlen=k)`); when the history then holds `k`
entries and `len(set(prediction_history)) == 1`, the `(gesture, confidence)`
pair is emitted to the result queue and the history is cleared.  Returns
the new history and the emitted confirmation, if any. -/
def consensusStep (k : ℕ) (hist : List Gesture) (g : Gesture) (conf : ℚ) :
    List Gesture × Option (Gesture × ℚ) :=
  if conf ≥ ML_CONFIDENCE_THRESHOLD then
    if (dequeAppend k hist g).length = k ∧ (dequeAppend k hist g).dedup.length = 1 then
      ([], some (g, conf))
    else (dequeAppend k hist g, none)
  else (hist, none)

/-- Fold `consensusStep` over a prediction stream, starting from an empty
history; returns the final history and the per-step confirmation outputs. -/
def consensusRun (k : ℕ) (inputs : List (Gesture × ℚ)) :
    List Gesture × List (Option (Gesture × ℚ)) :=
  inputs.foldl
    (fun acc p =>
      ((consensusStep k acc.1 p.1 p.2).1,
        acc.2 ++ [(consensusStep k acc.1 p.1 p.2).2]))
    ([], [])

/-- The accepted-prediction sequence `[jump, jump, punch, jump, jump]` of
the spec's example, each above threshold. -/
def jjpjjInputs : List (Gesture × ℚ) :=
  [(.jump, 1), (.jump, 1), (.punch, 1), (.jump, 1), (.jump, 1)]

theorem mem_dequeAppend_self (k : ℕ) (hist : List Gesture) (g : Gesture)
    (hk : 0 < k) : g ∈ dequeAppend k hist g := by
  unfold dequeAppend
  split_ifs with h
  · exact List.mem_append_right _ (List.mem_singleton_self g)
  · rw [List.drop_append_of_le_length (by omega)]
    exact List.mem_append_right _ (List.mem_singleton_self g)

theorem dedup_replicate_pos {α : Type} [DecidableEq α] (k : ℕ) (g : α)
    (hk : 0 < k) : (List.replicate k g).dedup = [g] := by
  induction k with
  | zero => omega
  | succ n ih =>
    rcases Nat.eq_zero_or_pos n with h0 | hpos
    · subst h0
      simp
    · rw [List.replicate_succ,
        List.dedup_cons_of_mem (List.mem_replicate.mpr ⟨Nat.pos_iff_ne_zero.mp hpos, rfl⟩)]
      exact ih hpos

/-- **C3** — The consensus filter confirms exactly when the history plus
the new accepted prediction forms a full run of `k` equal entries
(equivalently, equals `replicate k g`), clears its history on confirmation,
and on the accepted sequence `[jump, jump, punch, jump, jump]` with
`K = CONSENSUS_WINDOW = 2` it confirms `jump` at step 1 (from inputs 0 and 1,
after which the history is empty), does not confirm at steps 2 or 3 (the
`punch` at index 2 breaks the run: the histories are `[punch]` then
`[punch, jump]`), and confirms `jump` again at step 4, where the full deque
evicts the `punch` so the confirming run consists of inputs 3 and 4. -/
theorem consensus_filter_confirms_on_k_run
    (k : ℕ) (hist : List Gesture) (g : Gesture) (conf : ℚ)
    (hk : 0 < k) (hconf : ML_CONFIDENCE_THRESHOLD ≤ conf) :
    ((consensusStep k hist g conf).2 = some (g, conf) ↔
      dequeAppend k hist g = List.replicate k g) ∧
    ((consensusStep k hist g conf).2 ≠ none → (consensusStep k hist g conf).1 = []) ∧
    (consensusRun CONSENSUS_WINDOW jjpjjInputs).2 =
      [none, some (.jump, 1), none, none, some (.jump, 1)] ∧
    (consensusRun CONSENSUS_WINDOW (jjpjjInputs.take 1)).1 = [.jump] ∧
    (consensusRun CONSENSUS_WINDOW (jjpjjInputs.take 2)).1 = [] ∧
    (consensusRun CONSENSUS_WINDOW (jjpjjInputs.take 3)).1 = [.punch] ∧
    (consensusRun CONSENSUS_WINDOW (jjpjjInputs.take 4)).1 = [.punch, .jump] ∧
    (consensusRun CONSENSUS_WINDOW jjpjjInputs).1 = [] ∧
    dequeAppend CONSENSUS_WINDOW [.jump] .jump = [.jump, .jump] ∧
    dequeAppend CONSENSUS_WINDOW [.punch, .jump] .jump = [.jump, .jump] := by
  have h1 : ([Gesture.jump] : List Gesture).dedup = [Gesture.jump] := by decide
  have h2 : ([Gesture.jump, Gesture.jump] : List Gesture).dedup = [Gesture.jump] := by
    decide
  have h3 : ([Gesture.punch] : List Gesture).dedup = [Gesture.punch] := by decide
  have h4 : ([Gesture.punch, Gesture.jump] : List Gesture).dedup =
      [Gesture.punch, Gesture.jump] := by decide
  refine ⟨?_, ?_, ?_, ?_, ?_, ?_, ?_, ?_, ?_, ?_⟩
  case refine_3 | refine_4 | refine_5 | refine_6 | refine_7 | refine_8 | refine_9
      | refine_10 =>
    norm_num [consensusRun, jjpjjInputs, consensusStep, dequeAppend,
      ML_CONFIDENCE_THRESHOLD, CONSENSUS_WINDOW, h1, h2, h3, h4]
  · unfold consensusStep
    rw [if_pos hconf]
    by_cases hcond : (dequeAppend k hist g).length = k ∧
        (dequeAppend k hist g).dedup.length = 1
    · rw [if_pos hcond]
      refine iff_of_true rfl ?_
      obtain ⟨hlen, hded⟩ := hcond
      obtain ⟨a, ha⟩ := List.length_eq_one.mp hded
      have hmem : ∀ x ∈ dequeAppend k hist g, x = a := by
        intro x hx
        have hxd := List.mem_dedup.mpr hx
        rw [ha] at hxd
        simpa using hxd
      have hg : g = a := hmem g (mem_dequeAppend_self k hist g hk)
      subst hg
      rw [List.eq_replicate_iff]
      exact ⟨hlen, hmem⟩
    · rw [if_neg hcond]
      refine iff_of_false (by simp) ?_
      intro hrep
      apply hcond
      refine ⟨by rw [hrep, List.length_replicate], ?_⟩
      rw [hrep, dedup_replicate_pos k g hk]
      rfl
  · intro hne
    unfold consensusStep at hne ⊢
    rw [if_pos hconf] at hne ⊢
    by_cases hcond : (dequeAppend k hist g).length = k ∧
        (dequeAppend k hist g).dedup.length = 1
    · rw [if_pos hcond]
    · rw [if_neg hcond] at hne
      exact absurd rfl hne

/-- Witness for C3 at `k = 2`, empty history, an accepted `jump` with
confidence 1. -/
theorem consensus_filter_confirms_on_k_run_witness :
    ((consensusStep 2 [] .jump 1).2 = some (.jump, 1) ↔
      dequeAppend 2 [] .jump = List.replicate 2 .jump) ∧
    ((consensusStep 2 [] .jump 1).2 ≠ none → (consensusStep 2 [] .jump 1).1 = []) ∧
    (consensusRun CONSENSUS_WINDOW jjpjjInputs).2 =
      [none, some (.jump, 1), none, none, some (.jump, 1)] ∧
    (consensusRun CONSENSUS_WINDOW (jjpjjInputs.take 1)).1 = [.jump] ∧
    (consensusRun CONSENSUS_WINDOW (jjpjjInputs.take 2)).1 = [] ∧
    (consensusRun CONSENSUS_WINDOW (jjpjjInputs.take 3)).1 = [.punch] ∧
    (consensusRun CONSENSUS_WINDOW (jjpjjInputs.take 4)).1 = [.punch, .jump] ∧
    (consensusRun CONSENSUS_WINDOW jjpjjInputs).1 = [] ∧
    dequeAppend CONSENSUS_WINDOW [.jump] .jump = [.jump, .jump] ∧
    dequeAppend CONSENSUS_WINDOW [.punch, .jump] .jump = [.jump, .jump] :=
  consensus_filter_confirms_on_k_run 2 [] .jump 1 (by decide)
    (by norm_num [ML_CONFIDENCE_THRESHOLD])

/-! ## rotate_vector_by_quaternion (`src/src/feature_extractor.py`, lines 18–67)

Python float arithmetic is modelled exactly: a float is a finite value
(an exact rational), an infinity, or NaN; `*`, `+`, `-` follow IEEE-754
propagation (NaN absorbs, `inf * 0` and `inf - inf` are NaN) and never
raise.  The only operations in the function that can raise are the dict
accesses `quat["x"]`…`quat["w"]` (KeyError) and the list indexings
`vector[0]`…`vector[2]` (IndexError), so the embedding is `Except`-valued
over those. -/

inductive PFloat where
  | fin (q : ℚ) | inf | ninf | nan
deriving DecidableEq, Repr

def PFloat.neg : PFloat → PFloat
  | .fin q => .fin (-q)
  | .inf => .ninf
  | .ninf => .inf
  | .nan => .nan

/-- IEEE-754 multiplication on the sign-collapsed float model (one zero;
no claim here depends on signed zeros). -/
def PFloat.mul : PFloat → PFloat → PFloat
  | .nan, _ => .nan
  | _, .nan => .nan
  | .fin a, .fin b => .fin (a * b)
  | .inf, .fin b => if 0 < b then .inf else if b < 0 then .ninf else .nan
  | .fin a, .inf => if 0 < a then .inf else if a < 0 then .ninf else .nan
  | .ninf, .fin b => if 0 < b then .ninf else if b < 0 then .inf else .nan
  | .fin a, .ninf => if 0 < a then .ninf else if a < 0 then .inf else .nan
  | .inf, .inf => .inf
  | .inf, .ninf => .ninf
  | .ninf, .inf => .ninf
  | .ninf, .ninf => .inf

def PFloat.add : PFloat → PFloat → PFloat
  | .nan, _ => .nan
  | _, .nan => .nan
  | .fin a, .fin b => .fin (a + b)
  | .inf, .ninf => .nan
  | .ninf, .inf => .nan
  | .inf, _ => .inf
  | _, .inf => .inf
  | .ninf, _ => .ninf
  | _, .ninf => .ninf

def PFloat.sub (a b : PFloat) : PFloat := a.add b.neg

def PFloat.isFinite : PFloat → Bool
  | .fin _ => true
  | _ => false

/-- The `quat` argument: a Python dict whose keys `"x"`,`"y"`,`"z"`,`"w"`
may individually be missing. -/
structure QuatDict where
  x : Option PFloat
  y : Option PFloat
  z : Option PFloat
  w : Option PFloat
deriving DecidableEq, Repr

inductive PyErr where
  | keyError (k : String)
  | indexError
deriving DecidableEq, Repr

/-- `quat["k"]`: KeyError when the key is missing. -/
def dictGet (o : Option PFloat) (k : String) : Except PyErr PFloat :=
  match o with
  | some v => .ok v
  | none => .error (.keyError k)

/-- `vector[i]`: IndexError past the end. -/
def listGet (v : List PFloat) (i : ℕ) : Except PyErr PFloat :=
  match v.get? i with
  | some x => .ok x
  | none => .error .indexError

/-- `rotate_vector_by_quaternion(vector, quat)`: the standard
`v + b + c` shortcut with `a = 2*cross(q_vec, v)`, `b = q_scalar * a`,
`c = cross(q_vec, a)`, exactly as written in the source. -/
def rotate_vector_by_quaternion (vector : List PFloat) (quat : QuatDict) :
    Except PyErr (List PFloat) := do
  -- q_vec = [quat["x"], quat["y"], quat["z"]]; q_scalar = quat["w"]
  let qv0 ← dictGet quat.x "x"
  let qv1 ← dictGet quat.y "y"
  let qv2 ← dictGet quat.z "z"
  let q_scalar ← dictGet quat.w "w"
  let v0 ← listGet vector 0
  let v1 ← listGet vector 1
  let v2 ← listGet vector 2
  let two : PFloat := .fin 2
  let a0 := two.mul ((qv1.mul v2).sub (qv2.mul v1))
  let a1 := two.mul ((qv2.mul v0).sub (qv0.mul v2))
  let a2 := two.mul ((qv0.mul v1).sub (qv1.mul v0))
  let b0 := q_scalar.mul a0
  let b1 := q_scalar.mul a1
  let b2 := q_scalar.mul a2
  let c0 := (qv1.mul a2).sub (qv2.mul a1)
  let c1 := (qv2.mul a0).sub (qv0.mul a2)
  let c2 := (qv0.mul a1).sub (qv1.mul a0)
  pure [(v0.add b0).add c0, (v1.add b1).add c1, (v2.add b2).add c2]

/-- "the quaternion is finite": every component present and finite. -/
def quatFinite (q : QuatDict) : Bool :=
  (q.x.elim false PFloat.isFinite) && (q.y.elim false PFloat.isFinite) &&
  (q.z.elim false PFloat.isFinite) && (q.w.elim false PFloat.isFinite)

/-- All four keys present (regardless of finiteness). -/
def quatComplete (q : QuatDict) : Bool :=
  q.x.isSome && q.y.isSome && q.z.isSome && q.w.isSome

/-- **C6 counterexample** — a quaternion whose `x` component is NaN is not
finite, yet `rotate_vector_by_quaternion` returns a value
(`[nan, nan, nan]`) rather than failing: the source contains no finiteness
check and no `InvalidOrientation` error (the name appears nowhere in the
repository), so the claimed error case does not exist. -/
theorem rotate_nonfinite_quat_no_error :
    quatFinite ⟨some .nan, some (.fin 0), some (.fin 0), some (.fin 1)⟩ = false ∧
    rotate_vector_by_quaternion [.fin 1, .fin 0, .fin 0]
        ⟨some .nan, some (.fin 0), some (.fin 0), some (.fin 1)⟩ =
      .ok [.nan, .nan, .nan] := by
  constructor
  · rfl
  · rfl

/-- **C6 amended** — `rotate_vector_by_quaternion` raises no error on any
vector of at least 3 components and any quaternion dict containing all
four keys, finite or not (non-finite components simply propagate through
the arithmetic); its only failure modes are a missing quaternion key
(KeyError) and a too-short vector (IndexError). -/
theorem rotate_total_on_complete_inputs (vector : List PFloat) (quat : QuatDict)
    (hq : quatComplete quat = true) (hv : 3 ≤ vector.length) :
    (rotate_vector_by_quaternion vector quat).isOk = true := by
  cases quat with
  | mk ox oy oz ow =>
    simp only [quatComplete, Bool.and_eq_true, Option.isSome_iff_exists] at hq
    obtain ⟨⟨⟨⟨qx, hx⟩, qy, hy⟩, qz, hz⟩, qw, hw⟩ := hq
    subst hx
    subst hy
    subst hz
    subst hw
    cases vector with
    | nil => simp at hv
    | cons v0 t0 =>
      cases t0 with
      | nil => simp at hv
      | cons v1 t1 =>
        cases t1 with
        | nil => simp at hv
        | cons v2 rest => rfl

/-- Witness for the amended C6: a complete quaternion with NaN and
infinite components, and a 3-vector, produce a value. -/
theorem rotate_total_on_complete_inputs_witness :
    quatComplete ⟨some .nan, some .inf, some (.fin 3), some .ninf⟩ = true ∧
    3 ≤ ([.fin 1, .nan, .inf] : List PFloat).length ∧
    (rotate_vector_by_quaternion [.fin 1, .nan, .inf]
      ⟨some .nan, some .inf, some (.fin 3), some .ninf⟩).isOk = true :=
  ⟨rfl, by decide,
    rotate_total_on_complete_inputs _ _ rfl (by decide)⟩

/-- **C9** — rotating any finite 3-vector by the identity quaternion
`{x: 0, y: 0, z: 0, w: 1}` returns the vector unchanged (exactly: in the
rational model of finite float values the identity holds with no rounding,
matching `test_world_coordinate_transformation_identity`). -/
theorem rotate_identity_quat (x y z : ℚ) :
    rotate_vector_by_quaternion [.fin x, .fin y, .fin z]
      ⟨some (.fin 0), some (.fin 0), some (.fin 0), some (.fin 1)⟩ =
    .ok [.fin x, .fin y, .fin z] := by
  show Except.ok _ = _
  simp only [PFloat.mul, PFloat.sub, PFloat.neg, PFloat.add, Except.ok.injEq,
    List.cons.injEq, PFloat.fin.injEq, and_true]
  refine ⟨?_, ?_, ?_⟩ <;> ring

/-! ## extract_window_features / prepare_feature_vector
(`src/src/feature_extractor.py`, lines 70–286)

The window is a list of DataFrame rows; each row carries its sensor tag and
per-column values, `Option ℚ` with `none` for a NaN/missing cell.  The
numeric statistics (`mean`, `std`, `skew`, FFT magnitudes, …) are numpy /
scipy / pandas library calls — code outside this repository — so their
values are kept opaque: an `FVal` constructor records which statistic was
applied to which sample series.  The claims under verification only
inspect which feature names are produced and the `0` fill values, which
are plain numbers (`FVal.q`). -/

inductive SensorKind where
  | linear_acceleration | gyroscope | rotation_vector | other
deriving DecidableEq, Repr

/-- One row of `window_df`. -/
structure SensorRow where
  sensor : SensorKind
  accel_x : Option ℚ := none
  accel_y : Option ℚ := none
  accel_z : Option ℚ := none
  gyro_x : Option ℚ := none
  gyro_y : Option ℚ := none
  gyro_z : Option ℚ := none
  rot_x : Option ℚ := none
  rot_y : Option ℚ := none
  rot_z : Option ℚ := none
  rot_w : Option ℚ := none
deriving DecidableEq, Repr

/-- A feature value: either a plain number (only produced by the
fill-with-0 paths) or an opaque library statistic applied to a recorded
sample series. -/
inductive FVal where
  | q (x : ℚ)
  | mean (xs : List ℚ)
  | std (xs : List ℚ)
  | vmax (xs : List ℚ)
  | vmin (xs : List ℚ)
  | sub (a b : FVal)
  | median (xs : List ℚ)
  | skew (xs : List ℚ)
  | kurt (xs : List ℚ)
  | peakCount (xs : List ℚ)
  | fftMax (xs : List ℚ)
  | domFreq (xs : List ℚ)
  | fftMean (xs : List ℚ)
  | maxAbs (xs : List ℚ)
  | rms (xs : List ℚ)
  | magMean (ts : List (ℚ × ℚ × ℚ))
  | magMax (ts : List (ℚ × ℚ × ℚ))
  | magStd (ts : List (ℚ × ℚ × ℚ))
  | fillna (v : FVal)
deriving DecidableEq, Repr

/-- `series.dropna()`. -/
def dropna (xs : List (Option ℚ)) : List ℚ := xs.filterMap id

/-- The exact-rational specialisation of the quaternion rotation used by
the world-coordinate block (all NaN inputs are handled before this is
applied). -/
def rotateQ (vx vy vz qx qy qz qw : ℚ) : ℚ × ℚ × ℚ :=
  let a0 := 2 * (qy * vz - qz * vy)
  let a1 := 2 * (qz * vx - qx * vz)
  let a2 := 2 * (qx * vy - qy * vx)
  let b0 := qw * a0
  let b1 := qw * a1
  let b2 := qw * a2
  let c0 := qy * a2 - qz * a1
  let c1 := qz * a0 - qx * a2
  let c2 := qx * a1 - qy * a0
  (vx + b0 + c0, vy + b1 + c1, vz + b2 + c2)

/-- `rot.index[np.argmin(np.abs(rot.index - idx))]`: the rotation-row
index nearest to `i` (first minimum wins, as in `np.argmin`). -/
def nearestIdx (idxs : List ℕ) (i : ℕ) : Option ℕ :=
  idxs.foldl
    (fun best j =>
      match best with
      | none => some j
      | some b =>
          if Int.natAbs ((j : ℤ) - (i : ℤ)) < Int.natAbs ((b : ℤ) - (i : ℤ))
          then some j else some b)
    none

/-- The world-coordinate transformation (lines 114–147) for the accel row
`r` at window position `i`: take the rotation row at the same index when
present, else the nearest one; a NaN (`none`) in any of the three
acceleration components or four quaternion components makes every world
coordinate NaN, exactly as NaN propagates through
`rotate_vector_by_quaternion`'s float arithmetic. -/
def worldAccelAt (rotRows : List (ℕ × SensorRow)) (i : ℕ) (r : SensorRow) :
    Option (ℚ × ℚ × ℚ) := do
  let ridx ←
    if (rotRows.map Prod.fst).contains i then some i
    else nearestIdx (rotRows.map Prod.fst) i
  let rrow ← rotRows.lookup ridx
  let vx ← r.accel_x
  let vy ← r.accel_y
  let vz ← r.accel_z
  let qx ← rrow.rot_x
  let qy ← rrow.rot_y
  let qz ← rrow.rot_z
  let qw ← rrow.rot_w
  pure (rotateQ vx vy vz qx qy qz qw)

/-- `accel = window_df[window_df['sensor'] == 'linear_acceleration']`,
keeping the original DataFrame index (window position). -/
def accelRows (w : List SensorRow) : List (ℕ × SensorRow) :=
  w.enum.filter (fun p => p.2.sensor == SensorKind.linear_acceleration)

/-- `gyro = window_df[window_df['sensor'] == 'gyroscope']` (its index is
never used). -/
def gyroRows (w : List SensorRow) : List SensorRow :=
  w.filter (fun r => r.sensor == SensorKind.gyroscope)

/-- `rot = window_df[window_df['sensor'] == 'rotation_vector']`. -/
def rotRows (w : List SensorRow) : List (ℕ × SensorRow) :=
  w.enum.filter (fun p => p.2.sensor == SensorKind.rotation_vector)

def accelVals (w : List SensorRow) (proj : SensorRow → Option ℚ) : List ℚ :=
  dropna ((accelRows w).map (fun p => proj p.2))

def gyroVals (w : List SensorRow) (proj : SensorRow → Option ℚ) : List ℚ :=
  dropna ((gyroRows w).map proj)

def rotVals (w : List SensorRow) (proj : SensorRow → Option ℚ) : List ℚ :=
  dropna ((rotRows w).map (fun p => proj p.2))

/-- The (dropna'd) world-coordinate column `proj` of the accel frame. -/
def worldVals (w : List SensorRow) (proj : ℚ × ℚ × ℚ → ℚ) : List ℚ :=
  dropna ((accelRows w).map (fun p => (worldAccelAt (rotRows w) p.1 p.2).map proj))

/-- Per-axis acceleration features (lines 151–177). -/
def accelAxisFeats (axis : String) (xs : List ℚ) : List (String × FVal) :=
  if 0 < xs.length then
    [(axis ++ "_mean", .mean xs), (axis ++ "_std", .std xs),
     (axis ++ "_max", .vmax xs), (axis ++ "_min", .vmin xs),
     (axis ++ "_range", .sub (.vmax xs) (.vmin xs)),
     (axis ++ "_median", .median xs),
     (axis ++ "_skew", .skew xs), (axis ++ "_kurtosis", .kurt xs),
     (axis ++ "_peak_count", .peakCount xs)] ++
    (if 2 < xs.length then
      -- fft_vals = np.abs(fft(values))[:len(values)//2]
      if 0 < xs.length / 2 then
        [(axis ++ "_fft_max", .fftMax xs),
         (axis ++ "_dominant_freq", .domFreq xs),
         (axis ++ "_fft_mean", .fftMean xs)]
      else []
    else [])
  else []

/-- Per-axis world-coordinate features (lines 180–194). -/
def worldAxisFeats (axis : String) (xs : List ℚ) : List (String × FVal) :=
  if 0 < xs.length then
    [(axis ++ "_mean", .mean xs), (axis ++ "_std", .std xs),
     (axis ++ "_max", .vmax xs), (axis ++ "_min", .vmin xs),
     (axis ++ "_range", .sub (.vmax xs) (.vmin xs)),
     (axis ++ "_skew", .skew xs), (axis ++ "_kurtosis", .kurt xs)]
  else []

/-- Per-axis gyroscope features (lines 197–219). -/
def gyroAxisFeats (axis : String) (xs : List ℚ) : List (String × FVal) :=
  if 0 < xs.length then
    [(axis ++ "_mean", .mean xs), (axis ++ "_std", .std xs),
     (axis ++ "_max_abs", .maxAbs xs),
     (axis ++ "_range", .sub (.vmax xs) (.vmin xs)),
     (axis ++ "_skew", .skew xs), (axis ++ "_kurtosis", .kurt xs),
     (axis ++ "_rms", .rms xs)] ++
    (if 2 < xs.length then
      if 0 < xs.length / 2 then [(axis ++ "_fft_max", .fftMax xs)] else []
    else [])
  else []

/-- Per-axis rotation features (lines 222–229). -/
def rotAxisFeats (axis : String) (xs : List ℚ) : List (String × FVal) :=
  if 0 < xs.length then
    [(axis ++ "_mean", .mean xs), (axis ++ "_std", .std xs),
     (axis ++ "_range", .sub (.vmax xs) (.vmin xs))]
  else []

/-- Magnitude features (lines 233–252): the per-sample Euclidean norm of
the `fillna(0)` axes, then mean/max/std of that derived series. -/
def magFeats (pre : String) (ts : List (ℚ × ℚ × ℚ)) : List (String × FVal) :=
  [(pre ++ "_magnitude_mean", .magMean ts),
   (pre ++ "_magnitude_max", .magMax ts),
   (pre ++ "_magnitude_std", .magStd ts)]

/-- Acceleration block: axis features, then (only when the
world-transformation loop ran, i.e. both accel and rotation rows exist so
the `world_accel_*` columns were created) the world-axis features. -/
def accelSection (w : List SensorRow) : List (String × FVal) :=
  if 0 < (accelRows w).length then
    accelAxisFeats "accel_x" (accelVals w SensorRow.accel_x) ++
    accelAxisFeats "accel_y" (accelVals w SensorRow.accel_y) ++
    accelAxisFeats "accel_z" (accelVals w SensorRow.accel_z) ++
    (if 0 < (rotRows w).length then
      worldAxisFeats "world_accel_x" (worldVals w (fun t => t.1)) ++
      worldAxisFeats "world_accel_y" (worldVals w (fun t => t.2.1)) ++
      worldAxisFeats "world_accel_z" (worldVals w (fun t => t.2.2))
    else [])
  else []

def gyroSection (w : List SensorRow) : List (String × FVal) :=
  if 0 < (gyroRows w).length then
    gyroAxisFeats "gyro_x" (gyroVals w SensorRow.gyro_x) ++
    gyroAxisFeats "gyro_y" (gyroVals w SensorRow.gyro_y) ++
    gyroAxisFeats "gyro_z" (gyroVals w SensorRow.gyro_z)
  else []

def rotSection (w : List SensorRow) : List (String × FVal) :=
  if 0 < (rotRows w).length then
    rotAxisFeats "rot_x" (rotVals w SensorRow.rot_x) ++
    rotAxisFeats "rot_y" (rotVals w SensorRow.rot_y) ++
    rotAxisFeats "rot_z" (rotVals w SensorRow.rot_z) ++
    rotAxisFeats "rot_w" (rotVals w SensorRow.rot_w)
  else []

def magAccelSection (w : List SensorRow) : List (String × FVal) :=
  if 0 < (accelRows w).length then
    magFeats "accel"
      ((accelRows w).map
        (fun p => (p.2.accel_x.getD 0, p.2.accel_y.getD 0, p.2.accel_z.getD 0)))
  else []

def magGyroSection (w : List SensorRow) : List (String × FVal) :=
  if 0 < (gyroRows w).length then
    magFeats "gyro"
      ((gyroRows w).map (fun r => (r.gyro_x.getD 0, r.gyro_y.getD 0, r.gyro_z.getD 0)))
  else []

/-- `extract_window_features(window_df)`: the features dict in insertion
order.  Total: every branch returns a value, mirroring the source, whose
only `try` guards an exception that the float arithmetic cannot raise. -/
def extract_window_features (w : List SensorRow) : List (String × FVal) :=
  accelSection w ++ gyroSection w ++ rotSection w ++
    magAccelSection w ++ magGyroSection w

/-- `prepare_feature_vector(features, feature_names)` =
`pd.DataFrame([features]).fillna(0).reindex(columns=feature_names,
fill_value=0)`: present features pass through `fillna(0)`, requested but
absent columns are created holding `0`, unrequested columns are dropped,
and the column order is exactly `feature_names`. -/
def prepare_feature_vector (features : List (String × FVal))
    (feature_names : List String) : List (String × FVal) :=
  feature_names.map
    (fun n =>
      (n, match features.lookup n with
          | some v => FVal.fillna v
          | none => FVal.q 0))

/-- `len(window_df[window_df['sensor'] == kind])`: how many samples of a
sensor kind the window holds. -/
def kindCount (w : List SensorRow) (k : SensorKind) : ℕ :=
  (w.filter (fun r => r.sensor == k)).length

/-- The FFT-derived feature names of each sensor kind named by the claim
(`fft_max`, `fft_mean`, `dominant_freq`; the rotation kind has none). -/
def fftFeatureNames : SensorKind → List String
  | .linear_acceleration =>
      ["accel_x_fft_max", "accel_x_dominant_freq", "accel_x_fft_mean",
       "accel_y_fft_max", "accel_y_dominant_freq", "accel_y_fft_mean",
       "accel_z_fft_max", "accel_z_dominant_freq", "accel_z_fft_mean"]
  | .gyroscope =>
      ["gyro_x_fft_max", "gyro_x_dominant_freq", "gyro_x_fft_mean",
       "gyro_y_fft_max", "gyro_y_dominant_freq", "gyro_y_fft_mean",
       "gyro_z_fft_max", "gyro_z_dominant_freq", "gyro_z_fft_mean"]
  | _ => []

def accelBaseNames (axis : String) : List String :=
  [axis ++ "_mean", axis ++ "_std", axis ++ "_max", axis ++ "_min",
   axis ++ "_range", axis ++ "_median", axis ++ "_skew",
   axis ++ "_kurtosis", axis ++ "_peak_count"]

def axisFftNames (axis : String) : List String :=
  [axis ++ "_fft_max", axis ++ "_dominant_freq", axis ++ "_fft_mean"]

def worldFeatNames (axis : String) : List String :=
  [axis ++ "_mean", axis ++ "_std", axis ++ "_max", axis ++ "_min",
   axis ++ "_range", axis ++ "_skew", axis ++ "_kurtosis"]

def gyroBaseNames (axis : String) : List String :=
  [axis ++ "_mean", axis ++ "_std", axis ++ "_max_abs", axis ++ "_range",
   axis ++ "_skew", axis ++ "_kurtosis", axis ++ "_rms"]

def rotFeatNames (axis : String) : List String :=
  [axis ++ "_mean", axis ++ "_std", axis ++ "_range"]

def magFeatNames (pre : String) : List String :=
  [pre ++ "_magnitude_mean", pre ++ "_magnitude_max", pre ++ "_magnitude_std"]

theorem mem_keys_accelAxisFeats {axis n : String} {xs : List ℚ}
    (h : n ∈ (accelAxisFeats axis xs).map Prod.fst) :
    n ∈ accelBaseNames axis ∨ (n ∈ axisFftNames axis ∧ 2 < xs.length) := by
  unfold accelAxisFeats at h
  split_ifs at h with h0 h2 hf
  · simp only [List.map_append, List.mem_append] at h
    rcases h with h | h
    · exact Or.inl (by simpa [accelBaseNames] using h)
    · exact Or.inr ⟨by simpa [axisFftNames] using h, h2⟩
  · omega
  · exact Or.inl (by simpa [accelBaseNames] using h)
  · simp at h

theorem mem_keys_worldAxisFeats {axis n : String} {xs : List ℚ}
    (h : n ∈ (worldAxisFeats axis xs).map Prod.fst) : n ∈ worldFeatNames axis := by
  unfold worldAxisFeats at h
  split_ifs at h
  · simpa [worldFeatNames] using h
  · simp at h

theorem mem_keys_gyroAxisFeats {axis n : String} {xs : List ℚ}
    (h : n ∈ (gyroAxisFeats axis xs).map Prod.fst) :
    n ∈ gyroBaseNames axis ∨ (n = axis ++ "_fft_max" ∧ 2 < xs.length) := by
  unfold gyroAxisFeats at h
  split_ifs at h with h0 h2 hf
  · simp only [List.map_append, List.mem_append] at h
    rcases h with h | h
    · exact Or.inl (by simpa [gyroBaseNames] using h)
    · exact Or.inr ⟨by simpa using h, h2⟩
  · omega
  · exact Or.inl (by simpa [gyroBaseNames] using h)
  · simp at h

theorem mem_keys_rotAxisFeats {axis n : String} {xs : List ℚ}
    (h : n ∈ (rotAxisFeats axis xs).map Prod.fst) : n ∈ rotFeatNames axis := by
  unfold rotAxisFeats at h
  split_ifs at h
  · simpa [rotFeatNames] using h
  · simp at h

theorem mem_keys_magFeats {pre n : String} {ts : List (ℚ × ℚ × ℚ)}
    (h : n ∈ (magFeats pre ts).map Prod.fst) : n ∈ magFeatNames pre := by
  simpa [magFeats, magFeatNames] using h

theorem enumFrom_filter_length (w : List SensorRow) (k : SensorKind) (i : ℕ) :
    ((List.enumFrom i w).filter (fun p => p.2.sensor == k)).length =
      (w.filter (fun r => r.sensor == k)).length := by
  induction w generalizing i with
  | nil => rfl
  | cons a t ih =>
    simp only [List.enumFrom, List.filter]
    cases h : (a.sensor == k) <;> simp [h, ih (i + 1)]

theorem accelRows_length (w : List SensorRow) :
    (accelRows w).length = kindCount w .linear_acceleration :=
  enumFrom_filter_length w _ 0

theorem gyroRows_length (w : List SensorRow) :
    (gyroRows w).length = kindCount w .gyroscope := rfl

theorem accelVals_length_le (w : List SensorRow) (proj : SensorRow → Option ℚ) :
    (accelVals w proj).length ≤ kindCount w .linear_acceleration := by
  calc (accelVals w proj).length
      ≤ ((accelRows w).map (fun p => proj p.2)).length :=
        List.length_filterMap_le _ _
    _ = (accelRows w).length := List.length_map _ _
    _ = kindCount w .linear_acceleration := accelRows_length w

theorem gyroVals_length_le (w : List SensorRow) (proj : SensorRow → Option ℚ) :
    (gyroVals w proj).length ≤ kindCount w .gyroscope := by
  calc (gyroVals w proj).length
      ≤ ((gyroRows w).map proj).length := List.length_filterMap_le _ _
    _ = (gyroRows w).length := List.length_map _ _
    _ = kindCount w .gyroscope := gyroRows_length w

/-- Any key of the acceleration block is a non-FFT accel/world name, or an
accel FFT name produced only when the window holds at least 3 acceleration
samples. -/
theorem mem_keys_accelSection {w : List SensorRow} {n : String}
    (h : n ∈ (accelSection w).map Prod.fst) :
    (n ∈ accelBaseNames "accel_x" ∨ n ∈ accelBaseNames "accel_y" ∨
     n ∈ accelBaseNames "accel_z" ∨ n ∈ worldFeatNames "world_accel_x" ∨
     n ∈ worldFeatNames "world_accel_y" ∨ n ∈ worldFeatNames "world_accel_z") ∨
    ((n ∈ axisFftNames "accel_x" ∨ n ∈ axisFftNames "accel_y" ∨
      n ∈ axisFftNames "accel_z") ∧ 3 ≤ kindCount w .linear_acceleration) := by
  unfold accelSection at h
  split_ifs at h with ha hr
  · simp only [List.map_append, List.mem_append] at h
    rcases h with ((hx | hy) | hz) | hW
    · rcases mem_keys_accelAxisFeats hx with hb | ⟨hf, hl⟩
      · exact Or.inl (Or.inl hb)
      · refine Or.inr ⟨Or.inl hf, ?_⟩
        have := accelVals_length_le w SensorRow.accel_x
        omega
    · rcases mem_keys_accelAxisFeats hy with hb | ⟨hf, hl⟩
      · exact Or.inl (Or.inr (Or.inl hb))
      · refine Or.inr ⟨Or.inr (Or.inl hf), ?_⟩
        have := accelVals_length_le w SensorRow.accel_y
        omega
    · rcases mem_keys_accelAxisFeats hz with hb | ⟨hf, hl⟩
      · exact Or.inl (Or.inr (Or.inr (Or.inl hb)))
      · refine Or.inr ⟨Or.inr (Or.inr hf), ?_⟩
        have := accelVals_length_le w SensorRow.accel_z
        omega
    · rcases hW with (hw1 | hw2) | hw3
      · exact Or.inl (Or.inr (Or.inr (Or.inr (Or.inl (mem_keys_worldAxisFeats hw1)))))
      · exact Or.inl (Or.inr (Or.inr (Or.inr (Or.inr
          (Or.inl (mem_keys_worldAxisFeats hw2))))))
      · exact Or.inl (Or.inr (Or.inr (Or.inr (Or.inr
          (Or.inr (mem_keys_worldAxisFeats hw3))))))
  · simp only [List.append_nil, List.map_append, List.mem_append] at h
    rcases h with (hx | hy) | hz
    · rcases mem_keys_accelAxisFeats hx with hb | ⟨hf, hl⟩
      · exact Or.inl (Or.inl hb)
      · refine Or.inr ⟨Or.inl hf, ?_⟩
        have := accelVals_length_le w SensorRow.accel_x
        omega
    · rcases mem_keys_accelAxisFeats hy with hb | ⟨hf, hl⟩
      · exact Or.inl (Or.inr (Or.inl hb))
      · refine Or.inr ⟨Or.inr (Or.inl hf), ?_⟩
        have := accelVals_length_le w SensorRow.accel_y
        omega
    · rcases mem_keys_accelAxisFeats hz with hb | ⟨hf, hl⟩
      · exact Or.inl (Or.inr (Or.inr (Or.inl hb)))
      · refine Or.inr ⟨Or.inr (Or.inr hf), ?_⟩
        have := accelVals_length_le w SensorRow.accel_z
        omega
  · simp at h

/-- Any key of the gyroscope block is a non-FFT gyro name, or a gyro
`fft_max` name produced only with at least 3 gyroscope samples. -/
theorem mem_keys_gyroSection {w : List SensorRow} {n : String}
    (h : n ∈ (gyroSection w).map Prod.fst) :
    (n ∈ gyroBaseNames "gyro_x" ∨ n ∈ gyroBaseNames "gyro_y" ∨
     n ∈ gyroBaseNames "gyro_z") ∨
    ((n = "gyro_x" ++ "_fft_max" ∨ n = "gyro_y" ++ "_fft_max" ∨
      n = "gyro_z" ++ "_fft_max") ∧ 3 ≤ kindCount w .gyroscope) := by
  unfold gyroSection at h
  split_ifs at h with hg
  · simp only [List.map_append, List.mem_append] at h
    rcases h with (hx | hy) | hz
    · rcases mem_keys_gyroAxisFeats hx with hb | ⟨hf, hl⟩
      · exact Or.inl (Or.inl hb)
      · refine Or.inr ⟨Or.inl hf, ?_⟩
        have := gyroVals_length_le w SensorRow.gyro_x
        omega
    · rcases mem_keys_gyroAxisFeats hy with hb | ⟨hf, hl⟩
      · exact Or.inl (Or.inr (Or.inl hb))
      · refine Or.inr ⟨Or.inr (Or.inl hf), ?_⟩
        have := gyroVals_length_le w SensorRow.gyro_y
        omega
    · rcases mem_keys_gyroAxisFeats hz with hb | ⟨hf, hl⟩
      · exact Or.inl (Or.inr (Or.inr hb))
      · refine Or.inr ⟨Or.inr (Or.inr hf), ?_⟩
        have := gyroVals_length_le w SensorRow.gyro_z
        omega
  · simp at h

theorem mem_keys_rotSection {w : List SensorRow} {n : String}
    (h : n ∈ (rotSection w).map Prod.fst) :
    n ∈ rotFeatNames "rot_x" ∨ n ∈ rotFeatNames "rot_y" ∨
    n ∈ rotFeatNames "rot_z" ∨ n ∈ rotFeatNames "rot_w" := by
  unfold rotSection at h
  split_ifs at h with hr
  · simp only [List.map_append, List.mem_append] at h
    rcases h with ((hx | hy) | hz) | hw
    · exact Or.inl (mem_keys_rotAxisFeats hx)
    · exact Or.inr (Or.inl (mem_keys_rotAxisFeats hy))
    · exact Or.inr (Or.inr (Or.inl (mem_keys_rotAxisFeats hz)))
    · exact Or.inr (Or.inr (Or.inr (mem_keys_rotAxisFeats hw)))
  · simp at h

theorem mem_keys_magAccelSection {w : List SensorRow} {n : String}
    (h : n ∈ (magAccelSection w).map Prod.fst) : n ∈ magFeatNames "accel" := by
  unfold magAccelSection at h
  split_ifs at h
  · exact mem_keys_magFeats h
  · simp at h

theorem mem_keys_magGyroSection {w : List SensorRow} {n : String}
    (h : n ∈ (magGyroSection w).map Prod.fst) : n ∈ magFeatNames "gyro" := by
  unfold magGyroSection at h
  split_ifs at h
  · exact mem_keys_magFeats h
  · simp at h

/-- An FFT-derived feature name of a kind with fewer than 3 samples in the
window is never a key of the extracted feature dict. -/
theorem fft_not_in_extract_keys {w : List SensorRow} {kind : SensorKind} {n : String}
    (hn : n ∈ fftFeatureNames kind) (hc : kindCount w kind < 3) :
    n ∉ (extract_window_features w).map Prod.fst := by
  intro hmem
  unfold extract_window_features at hmem
  simp only [List.map_append, List.mem_append] at hmem
  cases kind with
  | rotation_vector => simp [fftFeatureNames] at hn
  | other => simp [fftFeatureNames] at hn
  | linear_acceleration =>
    rcases hmem with (((hA | hG) | hR) | hMA) | hMG
    · rcases mem_keys_accelSection hA with hb | ⟨_, hcnt⟩
      · rcases hb with hb | hb | hb | hb | hb | hb
        · exact (by decide : ∀ m ∈ fftFeatureNames SensorKind.linear_acceleration,
            m ∉ accelBaseNames "accel_x") n hn hb
        · exact (by decide : ∀ m ∈ fftFeatureNames SensorKind.linear_acceleration,
            m ∉ accelBaseNames "accel_y") n hn hb
        · exact (by decide : ∀ m ∈ fftFeatureNames SensorKind.linear_acceleration,
            m ∉ accelBaseNames "accel_z") n hn hb
        · exact (by decide : ∀ m ∈ fftFeatureNames SensorKind.linear_acceleration,
            m ∉ worldFeatNames "world_accel_x") n hn hb
        · exact (by decide : ∀ m ∈ fftFeatureNames SensorKind.linear_acceleration,
            m ∉ worldFeatNames "world_accel_y") n hn hb
        · exact (by decide : ∀ m ∈ fftFeatureNames SensorKind.linear_acceleration,
            m ∉ worldFeatNames "world_accel_z") n hn hb
      · omega
    · rcases mem_keys_gyroSection hG with hb | ⟨hf, _⟩
      · rcases hb with hb | hb | hb
        · exact (by decide : ∀ m ∈ fftFeatureNames SensorKind.linear_acceleration,
            m ∉ gyroBaseNames "gyro_x") n hn hb
        · exact (by decide : ∀ m ∈ fftFeatureNames SensorKind.linear_acceleration,
            m ∉ gyroBaseNames "gyro_y") n hn hb
        · exact (by decide : ∀ m ∈ fftFeatureNames SensorKind.linear_acceleration,
            m ∉ gyroBaseNames "gyro_z") n hn hb
      · rcases hf with hf | hf | hf <;> subst hf <;> revert hn <;> decide
    · rcases mem_keys_rotSection hR with hb | hb | hb | hb
      · exact (by decide : ∀ m ∈ fftFeatureNames SensorKind.linear_acceleration,
          m ∉ rotFeatNames "rot_x") n hn hb
      · exact (by decide : ∀ m ∈ fftFeatureNames SensorKind.linear_acceleration,
          m ∉ rotFeatNames "rot_y") n hn hb
      · exact (by decide : ∀ m ∈ fftFeatureNames SensorKind.linear_acceleration,
          m ∉ rotFeatNames "rot_z") n hn hb
      · exact (by decide : ∀ m ∈ fftFeatureNames SensorKind.linear_acceleration,
          m ∉ rotFeatNames "rot_w") n hn hb
    · exact (by decide : ∀ m ∈ fftFeatureNames SensorKind.linear_acceleration,
        m ∉ magFeatNames "accel") n hn (mem_keys_magAccelSection hMA)
    · exact (by decide : ∀ m ∈ fftFeatureNames SensorKind.linear_acceleration,
        m ∉ magFeatNames "gyro") n hn (mem_keys_magGyroSection hMG)
  | gyroscope =>
    rcases hmem with (((hA | hG) | hR) | hMA) | hMG
    · rcases mem_keys_accelSection hA with hb | ⟨hf, _⟩
      · rcases hb with hb | hb | hb | hb | hb | hb
        · exact (by decide : ∀ m ∈ fftFeatureNames SensorKind.gyroscope,
            m ∉ accelBaseNames "accel_x") n hn hb
        · exact (by decide : ∀ m ∈ fftFeatureNames SensorKind.gyroscope,
            m ∉ accelBaseNames "accel_y") n hn hb
        · exact (by decide : ∀ m ∈ fftFeatureNames SensorKind.gyroscope,
            m ∉ accelBaseNames "accel_z") n hn hb
        · exact (by decide : ∀ m ∈ fftFeatureNames SensorKind.gyroscope,
            m ∉ worldFeatNames "world_accel_x") n hn hb
        · exact (by decide : ∀ m ∈ fftFeatureNames SensorKind.gyroscope,
            m ∉ worldFeatNames "world_accel_y") n hn hb
        · exact (by decide : ∀ m ∈ fftFeatureNames SensorKind.gyroscope,
            m ∉ worldFeatNames "world_accel_z") n hn hb
      · rcases hf with hf | hf | hf
        · exact (by decide : ∀ m ∈ fftFeatureNames SensorKind.gyroscope,
            m ∉ axisFftNames "accel_x") n hn hf
        · exact (by decide : ∀ m ∈ fftFeatureNames SensorKind.gyroscope,
            m ∉ axisFftNames "accel_y") n hn hf
        · exact (by decide : ∀ m ∈ fftFeatureNames SensorKind.gyroscope,
            m ∉ axisFftNames "accel_z") n hn hf
    · rcases mem_keys_gyroSection hG with hb | ⟨_, hcnt⟩
      · rcases hb with hb | hb | hb
        · exact (by decide : ∀ m ∈ fftFeatureNames SensorKind.gyroscope,
            m ∉ gyroBaseNames "gyro_x") n hn hb
        · exact (by decide : ∀ m ∈ fftFeatureNames SensorKind.gyroscope,
            m ∉ gyroBaseNames "gyro_y") n hn hb
        · exact (by decide : ∀ m ∈ fftFeatureNames SensorKind.gyroscope,
            m ∉ gyroBaseNames "gyro_z") n hn hb
      · omega
    · rcases mem_keys_rotSection hR with hb | hb | hb | hb
      · exact (by decide : ∀ m ∈ fftFeatureNames SensorKind.gyroscope,
          m ∉ rotFeatNames "rot_x") n hn hb
      · exact (by decide : ∀ m ∈ fftFeatureNames SensorKind.gyroscope,
          m ∉ rotFeatNames "rot_y") n hn hb
      · exact (by decide : ∀ m ∈ fftFeatureNames SensorKind.gyroscope,
          m ∉ rotFeatNames "rot_z") n hn hb
      · exact (by decide : ∀ m ∈ fftFeatureNames SensorKind.gyroscope,
          m ∉ rotFeatNames "rot_w") n hn hb
    · exact (by decide : ∀ m ∈ fftFeatureNames SensorKind.gyroscope,
        m ∉ magFeatNames "accel") n hn (mem_keys_magAccelSection hMA)
    · exact (by decide : ∀ m ∈ fftFeatureNames SensorKind.gyroscope,
        m ∉ magFeatNames "gyro") n hn (mem_keys_magGyroSection hMG)

theorem lookup_eq_none_of_not_mem_keys {l : List (String × FVal)} {n : String}
    (h : ¬ n ∈ l.map Prod.fst) : l.lookup n = none := by
  induction l with
  | nil => rfl
  | cons p t ih =>
    cases p with
    | mk k v =>
      simp only [List.map_cons, List.mem_cons, not_or] at h
      obtain ⟨h1, h2⟩ := h
      have hb : (n == k) = false := beq_eq_false_iff_ne.mpr h1
      simp [List.lookup, hb, ih h2]

/-- **C7** — For every input window containing fewer than 3 samples of a
given sensor kind, feature extraction followed by feature-vector
preparation yields the plain number 0 for every requested FFT-derived
feature of that kind (`fft_max`, `fft_mean`, `dominant_freq`; for the
gyroscope, `fft_mean`/`dominant_freq` are additionally never computed for
any window).  Both functions are total by construction: the
`len(values) > 2` guard skips the FFT block instead of raising. -/
theorem fft_features_zero_for_sparse_kind (w : List SensorRow) (kind : SensorKind)
    (names : List String) (n : String) (v : FVal)
    (hc : kindCount w kind < 3)
    (hmem : (n, v) ∈ prepare_feature_vector (extract_window_features w) names)
    (hn : n ∈ fftFeatureNames kind) :
    v = FVal.q 0 := by
  have hnk := fft_not_in_extract_keys hn hc
  have hlk := lookup_eq_none_of_not_mem_keys hnk
  unfold prepare_feature_vector at hmem
  simp only [List.mem_map] at hmem
  obtain ⟨m, hm, heq⟩ := hmem
  have h1 : m = n := congrArg Prod.fst heq
  subst h1
  have h2 : (match (extract_window_features w).lookup m with
      | some x => FVal.fillna x
      | none => FVal.q 0) = v := congrArg Prod.snd heq
  rw [hlk] at h2
  exact h2.symm

/-- Witness for C7: the empty window has 0 < 3 acceleration samples and
the prepared vector maps `accel_x_fft_max` to 0. -/
theorem fft_features_zero_for_sparse_kind_witness :
    kindCount [] SensorKind.linear_acceleration < 3 ∧
    ("accel_x_fft_max", FVal.q 0) ∈
      prepare_feature_vector (extract_window_features []) ["accel_x_fft_max"] ∧
    "accel_x_fft_max" ∈ fftFeatureNames SensorKind.linear_acceleration ∧
    FVal.q 0 = FVal.q 0 :=
  ⟨by decide, by decide, by decide,
    fft_features_zero_for_sparse_kind [] SensorKind.linear_acceleration
      ["accel_x_fft_max"] "accel_x_fft_max" (FVal.q 0)
      (by decide) (by decide) (by decide)⟩

/-- **C8** — For every extracted feature dictionary and every externally
supplied ordered feature-name list, the prepared vector's column names are
exactly the requested names in the requested order; every requested name
absent from the dictionary appears with value 0, and every entry of the
prepared vector is keyed by a requested name, so computed features outside
the list are dropped before inference. -/
theorem prepared_vector_matches_name_list (w : List SensorRow) (names : List String) :
    (prepare_feature_vector (extract_window_features w) names).map Prod.fst = names ∧
    (∀ p ∈ prepare_feature_vector (extract_window_features w) names,
      p.1 ∈ names ∧
      ((extract_window_features w).lookup p.1 = none → p.2 = FVal.q 0)) := by
  constructor
  · unfold prepare_feature_vector
    rw [List.map_map]
    show List.map (fun n => n) names = names
    exact List.map_id' names
  · intro p hp
    unfold prepare_feature_vector at hp
    simp only [List.mem_map] at hp
    obtain ⟨m, hm, heq⟩ := hp
    subst heq
    refine ⟨hm, ?_⟩
    intro hnone
    simp [hnone]

/-- Witness for C8: the empty window with a two-name list gives the two
names in order, and the absent name `alpha` carries value 0. -/
theorem prepared_vector_matches_name_list_witness :
    (prepare_feature_vector (extract_window_features []) ["alpha", "beta"]).map Prod.fst
        = ["alpha", "beta"] ∧
    ("alpha", FVal.q 0).1 ∈ (["alpha", "beta"] : List String) ∧
    ((extract_window_features []).lookup ("alpha", FVal.q 0).1 = none →
      ("alpha", FVal.q 0).2 = FVal.q 0) :=
  ⟨(prepared_vector_matches_name_list [] ["alpha", "beta"]).1,
    ((prepared_vector_matches_name_list [] ["alpha", "beta"]).2 ("alpha", FVal.q 0)
      (by decide)).1,
    ((prepared_vector_matches_name_list [] ["alpha", "beta"]).2 ("alpha", FVal.q 0)
      (by decide)).2⟩

end Silksong
